import Mathlib

/-!
Verification development for the `Hilomap` layer
(`src/ol/layer/Hilomap.js`): a heatmap-style OpenLayers vector layer that
highlights low and high extremes of a point-feature weight field.

The embedding below translates the per-frame rasterization pipeline of
`Hilomap.handleRender_`, the stamp construction of `createCircle_`, and the
gradient construction of `createGradient` into Lean.  JavaScript numbers are
modelled by `ℚ`; every place where IEEE-754 doubles could diverge from exact
rational arithmetic is noted at the definition it concerns.  Host-canvas
primitives (`drawImage` compositing, gradient sampling) are external to the
repository and are modelled as explicit parameters or per the HTML canvas
specification, as noted.
-/

set_option autoImplicit false

namespace Hilomap

/-- `Math.round` on the values arising in this pipeline: round half toward
positive infinity.  On the inputs used below the double computation is exact
up to the final division (integer numerators of magnitude at most `255 * 255`
and halves are exactly representable), so rounding the exact rational agrees
with rounding the computed double. -/
def jsRound (x : ℚ) : ℤ := ⌊x + 1 / 2⌋

/-- `clamp` from `ol/math.js`: `Math.min(Math.max(value, min), max)`, on
rationals. -/
def clampQ (value lo hi : ℚ) : ℚ := min (max value lo) hi

/-- `clamp` from `ol/math.js` on integers (used where all operands are
integral, as in the signed-intensity computation). -/
def clampI (value lo hi : ℤ) : ℤ := min (max value lo) hi

/-- The non-finite results a JavaScript double computation can take, next to
finite (here: exactly-represented rational) values. -/
inductive JSNum where
  | num (q : ℚ)
  | nan
  | posInf
  | negInf
  deriving DecidableEq

/-- JavaScript division of two integer-valued doubles.  Division by zero
follows IEEE-754: `0/0` is NaN, `p/0` is `±Infinity` according to the sign of
`p`.  For a nonzero divisor the rounded double quotient agrees with the exact
rational for the operand ranges appearing in this file (numerator magnitude
at most `255 * 255`, divisor magnitude at most `255`), because such a quotient
is never within double precision of a half-integer it does not equal. -/
def jsDivZ (p q : ℤ) : JSNum :=
  if q = 0 then
    if p = 0 then JSNum.nan else if 0 < p then JSNum.posInf else JSNum.negInf
  else JSNum.num ((p : ℚ) / (q : ℚ))

/-- `Math.round` lifted to `JSNum`: NaN and the infinities are fixed points. -/
def jsRoundNum : JSNum → JSNum
  | JSNum.num q => JSNum.num ((jsRound q : ℤ) : ℚ)
  | JSNum.nan => JSNum.nan
  | JSNum.posInf => JSNum.posInf
  | JSNum.negInf => JSNum.negInf

/-- Round half to even on rationals, as used by the `Uint8ClampedArray`
conversion (ties never arise on the integral values stored below). -/
def roundHalfEven (q : ℚ) : ℤ :=
  let f := ⌊q⌋
  if q - f < 1 / 2 then f
  else if 1 / 2 < q - f then f + 1
  else if f % 2 = 0 then f else f + 1

/-- Storing a JavaScript number into a `Uint8ClampedArray` slot: NaN becomes
`0`, values are clamped to `[0, 255]`, non-integral values round half to
even. -/
def u8Store : JSNum → ℕ
  | JSNum.num q => (clampI (roundHalfEven q) 0 255).toNat
  | JSNum.nan => 0
  | JSNum.posInf => 255
  | JSNum.negInf => 0

/-- One slot of the final alpha-rescale loop (`handleRender_`, the loop
`img[i + 3] = Math.round((img[i + 3] - wMin) * 255.0 / (wMax - wMin))`):
the subtraction and multiplication are exact, then the division may divide by
zero when `wMax == wMin`, and the result is stored back into the
`Uint8ClampedArray` pixel data. -/
def rescaleAlpha (wMin wMax : ℤ) (a : ℕ) : ℕ :=
  u8Store (jsRoundNum (jsDivZ (((a : ℤ) - wMin) * 255) (wMax - wMin)))

/-- One RGBA pixel of canvas image data (each channel an 8-bit value). -/
structure Pixel where
  r : ℕ
  g : ℕ
  b : ℕ
  a : ℕ
  deriving DecidableEq

/-- The signed intensity of one pixel (`handleRender_`):
`clamp(Math.round(128 + (hiA[i+3] - loA[i+3]) / 2), 0, 255)`.  The halved
difference of two 8-bit integers is exactly representable, so the double
computation matches the rational one. -/
def signedW (hi lo : ℕ) : ℤ :=
  clampI (jsRound ((128 : ℚ) + ((hi : ℚ) - (lo : ℚ)) / 2)) 0 255

/-- The gradient-lookup step of the per-pixel resolve loop: with
`posOnGradient = w * 4`, the branch `if (posOnGradient)` (number truthiness:
nonzero) overwrites the pixel's RGB with `gradient_[posOnGradient .. + 2]`
and leaves the alpha untouched (`img[i + 3] = w` is commented out in the
source). -/
def colorPixel (grad : ℤ → ℕ) (p : Pixel) (w : ℤ) : Pixel :=
  let pos := w * 4
  if pos ≠ 0 then { p with r := grad pos, g := grad (pos + 1), b := grad (pos + 2) }
  else p

/-- The resolve loop of `handleRender_` over the zipped pixel data
`(img pixel, hiA alpha, loA alpha)`: computes each signed intensity, tracks
the running minimum and maximum (strict comparisons, initial accumulators
`wMin = 255`, `wMax = 0` at the call site), and recolors each pixel. -/
def resolveLoop (grad : ℤ → ℕ) : List (Pixel × ℕ × ℕ) → ℤ → ℤ → List Pixel × ℤ × ℤ
  | [], wMin, wMax => ([], wMin, wMax)
  | t :: rest, wMin, wMax =>
    let w := signedW t.2.1 t.2.2
    let wMax' := if w > wMax then w else wMax
    let wMin' := if w < wMin then w else wMin
    let out := resolveLoop grad rest wMin' wMax'
    (colorPixel grad t.1 w :: out.1, out.2)

/-- The final alpha-rescale loop of `handleRender_`: every pixel's alpha is
overwritten by `rescaleAlpha`; RGB channels are untouched. -/
def rescaleImage (wMin wMax : ℤ) (ps : List Pixel) : List Pixel :=
  ps.map fun p => { p with a := rescaleAlpha wMin wMax p.a }

/-- One coarsened grid point: the device-pixel position (already rounded to
integers when stored, lines computing `px`/`py`) and the raw weight returned
by the weight accessor. -/
structure Pt where
  px : ℤ
  py : ℤ
  w : ℚ
  deriving DecidableEq

/-- Distance of a weight from the 0.5 midpoint, `Math.abs(weight - 0.5)`. -/
def distHalf (w : ℚ) : ℚ := |w - 1 / 2|

/-- The in-cell replacement rule of `handleRender_` (the `else` branch of the
grid fill): the stored cell is overwritten by the incoming point exactly when
`Math.abs(weight - 0.5) > Math.abs(cell[2] - 0.5)` holds strictly. -/
def cellUpdate (cell : Pt) (px py : ℤ) (w : ℚ) : Pt :=
  if distHalf w > distHalf cell.w then ⟨px, py, w⟩ else cell

/-- The representative a grid cell holds after a sequence of same-cell
features has been processed: the first feature creates the cell, each later
one is merged by `cellUpdate`. -/
def cellFold (p0 : Pt) (ps : List Pt) : Pt :=
  ps.foldl (fun c q => cellUpdate c q.px q.py q.w) p0

/-- The sparse grid `xyz`, keyed by `(cy, cx)`; association list in
first-insertion order. -/
abbrev Grid : Type := List ((ℤ × ℤ) × Pt)

/-- Cell lookup `xyz[cy][cx]` (a stored cell array is always truthy, so the
`!cell` test in the source is exactly absence). -/
def gridFind (g : Grid) (k : ℤ × ℤ) : Option Pt :=
  (List.find? (fun e => e.1 = k) g).map (fun e => e.2)

/-- The grid fill step for one in-extent feature: create the cell on first
contact (`xyz[cy][cx] = [px, py, weight]`), otherwise merge by `cellUpdate`. -/
def gridInsert (g : Grid) (k : ℤ × ℤ) (px py : ℤ) (w : ℚ) : Grid :=
  match gridFind g k with
  | none => g ++ [(k, ⟨px, py, w⟩)]
  | some _ => g.map (fun e => if e.1 = k then (k, cellUpdate e.2 px py w) else e)

/-- Ascending `(cy, cx)` order on grid entries, matching the index order in
which the extraction loops of `handleRender_` walk the sparse arrays. -/
def keyLE (a b : (ℤ × ℤ) × Pt) : Bool := a.1.1 < b.1.1 ∨ (a.1.1 = b.1.1 ∧ a.1.2 ≤ b.1.2)

/-- Insertion into a key-sorted list of grid entries. -/
def insSorted (e : (ℤ × ℤ) × Pt) : List ((ℤ × ℤ) × Pt) → List ((ℤ × ℤ) × Pt)
  | [] => [e]
  | x :: xs => if keyLE e x then e :: x :: xs else x :: insSorted e xs

/-- Sorting grid entries into the ascending index order of the extraction
loops. -/
def sortGrid (g : List ((ℤ × ℤ) × Pt)) : List ((ℤ × ℤ) × Pt) :=
  g.foldr insSorted []

/-- The `pointset` extraction of `handleRender_`: walk the sparse grid in
ascending index order (JavaScript array iteration by `length` visits only
non-negative integer indices, ascending) and push
`[Math.round(p[0]), Math.round(p[1]), clamp(p[2], 0, 1)]`; the stored
positions are already integers, so rounding them again is the identity. -/
def extractPoints (g : Grid) : List Pt :=
  (sortGrid (g.filter (fun e => 0 ≤ e.1.1 ∧ 0 ≤ e.1.2))).map
    (fun e => ⟨e.2.px, e.2.py, clampQ e.2.w 0 1⟩)

/-- A point feature as consumed by the pipeline: a 2D world coordinate from
`feature.getGeometry().getCoordinates()`. -/
structure Feature where
  x : ℚ
  y : ℚ
  deriving DecidableEq

/-- The per-frame render event data used by `handleRender_`: the frame extent
`frameState.extent`, device pixel ratio, view resolution, the affine
coordinate-to-pixel transform (applied through the host's `transform2D`,
modelled as a function), the canvas dimensions, and the visible `Hilomap`
layer's feature list located by the `instanceof` scan (`none` when no visible
`Hilomap` layer is found among `frameState.layerStatesArray`). -/
structure FrameEvent where
  minx : ℚ
  miny : ℚ
  maxx : ℚ
  maxy : ℚ
  pixelRatio : ℚ
  resolution : ℚ
  toPixel : ℚ × ℚ → ℚ × ℚ
  width : ℕ
  height : ℕ
  layer : Option (List Feature)

/-- Processing of one feature in the grid-fill loop of `handleRender_`:
skip features outside the frame extent (strict bound comparisons mirror
`coord[0] < framebb[0] || ...`), project to device pixels and round, read the
weight through the configured accessor (a user-supplied accessor may throw,
modelled by `Except`), and insert into the sparse grid. -/
def featureStep (weightF : Feature → Except String ℚ) (ev : FrameEvent) (cellSize : ℤ)
    (g : Grid) (f : Feature) : Except String Grid :=
  if f.x < ev.minx ∨ f.y < ev.miny ∨ f.x > ev.maxx ∨ f.y > ev.maxy then pure g
  else do
    let gc := ev.toPixel (f.x, f.y)
    let px := jsRound (gc.1 * ev.pixelRatio)
    let py := jsRound (gc.2 * ev.pixelRatio)
    let w ← weightF f
    let cx := ⌊(px : ℚ) / (cellSize : ℚ)⌋
    let cy := ⌊(py : ℚ) / (cellSize : ℚ)⌋
    pure (gridInsert g (cy, cx) px py w)

/-- The full grid-fill loop over the layer's features. -/
def coarsen (weightF : Feature → Except String ℚ) (ev : FrameEvent) (cellSize : ℤ)
    (features : List Feature) : Except String Grid :=
  features.foldlM (featureStep weightF ev cellSize) []

/-- The canvas operations `handleRender_` issues against the event canvas.
`clearRect` is always the full-canvas `clearRect(0, 0, canvas.width,
canvas.height)`; `drawImage` records the `globalAlpha` in force and the
destination offset of the stamp image; `putImage` is the final
`putImageData(image, 0, 0)`. -/
inductive CanvasOp where
  | clearRect
  | drawImage (alpha : ℚ) (dx dy : ℚ)
  | putImage
  deriving DecidableEq

/-- Paint opacity of a low point, `(0.5 - p[2]) * 2`. -/
def lowOpacity (w : ℚ) : ℚ := (1 / 2 - w) * 2

/-- Paint opacity of a high point, `(p[2] - 0.5) * 2`. -/
def highOpacity (w : ℚ) : ℚ := (w - 1 / 2) * 2

/-- The stamp draw of one point: `drawImage(circleImage_.canvas, p[0] -
radius, p[1] - radius)` under the given paint opacity. -/
def drawPoint (alpha : ℚ) (radius : ℚ) (p : Pt) : CanvasOp :=
  CanvasOp.drawImage alpha ((p.px : ℚ) - radius) ((p.py : ℚ) - radius)

/-- Draw round 1 of `handleRender_`: points with `p[2] <= 0.5` are stamped
with opacity `(0.5 - p[2]) * 2`; the others are pushed onto `hipoints`.  The
result is the pair (issued draw operations, accumulated `hipoints`). -/
def pass1 (radius : ℚ) (ps : List Pt) : List CanvasOp × List Pt :=
  ps.foldl
    (fun acc p =>
      if p.w ≤ 1 / 2 then (acc.1 ++ [drawPoint (lowOpacity p.w) radius p], acc.2)
      else (acc.1, acc.2 ++ [p]))
    ([], [])

/-- Draw round 2 of `handleRender_`: every `hipoints` entry is stamped with
opacity `(p[2] - 0.5) * 2`. -/
def pass2 (radius : ℚ) (hipoints : List Pt) : List CanvasOp :=
  hipoints.map (fun p => drawPoint (highOpacity p.w) radius p)

/-- The final draw round of `handleRender_`: every point of `pointset` is
stamped, with opacity `(0.5 - p[2]) * 2` when `p[2] <= 0.5` and
`(p[2] - 0.5) * 2` otherwise. -/
def pass3 (radius : ℚ) (ps : List Pt) : List CanvasOp :=
  ps.map (fun p =>
    drawPoint (if p.w ≤ 1 / 2 then lowOpacity p.w else highOpacity p.w) radius p)

/-- The host canvas the render event hands over: its dimensions, its contents
when the handler starts, and the host's `drawImage` compositing semantics
(source-over blending of the stamp raster, an external canvas primitive,
modelled as an arbitrary pixel-data transformer parameterized by paint alpha
and destination offset). -/
structure CanvasHost where
  width : ℕ
  height : ℕ
  draw : ℚ → ℚ → ℚ → List Pixel → List Pixel
  init : List Pixel

/-- A fully cleared canvas: `clearRect` over the whole canvas resets every
pixel to transparent black per the HTML canvas specification. -/
def clearedCanvas (w h : ℕ) : List Pixel :=
  List.replicate (w * h) ⟨0, 0, 0, 0⟩

/-- Executing a list of canvas operations against the host canvas, returning
the resulting pixel data (what `getImageData` reads back). -/
def runOps (host : CanvasHost) (ops : List CanvasOp) : List Pixel :=
  ops.foldl
    (fun c op =>
      match op with
      | CanvasOp.clearRect => clearedCanvas host.width host.height
      | CanvasOp.drawImage a dx dy => host.draw a dx dy c
      | CanvasOp.putImage => c)
    host.init

/-- The alpha channel of read-back pixel data (the copies
`loA[i + 3] = loImg[i + 3]` and `hiA[i + 3] = hiImg[i + 3]`). -/
def alphasOf (c : List Pixel) : List ℕ := c.map (fun p => p.a)

/-- The drawing parameters of the circle stamp built by `createCircle_`:
the offscreen canvas dimensions, the shadow configuration, and the arc
placed at `(-halfSize, -halfSize)` so only its shadow lands inside the
raster.  The host primitive `createCanvasContext2D(size, size)` is modelled
as creating a raster of exactly the requested size. -/
structure StampSpec where
  width : ℚ
  height : ℚ
  shadowOffsetX : ℚ
  shadowOffsetY : ℚ
  shadowBlur : ℚ
  centerX : ℚ
  centerY : ℚ
  arcRadius : ℚ
  deriving DecidableEq

/-- `createCircle_(scaleRatio)` with the layer's radius and blur values:
`radius = getRadius() * scaleRatio`, `blur = getBlur() * scaleRatio`,
`halfSize = radius + blur + 1`, `size = 2 * halfSize`; shadow offsets are set
to `size`, the shadow blur to `blur`, and the arc of radius `radius` is
centered at `(-halfSize, -halfSize)`. -/
def createCircleRB (radius blur : ℚ) (scaleRatio : ℚ) : StampSpec :=
  let r := radius * scaleRatio
  let b := blur * scaleRatio
  let halfSize := r + b + 1
  let size := 2 * halfSize
  { width := size, height := size,
    shadowOffsetX := size, shadowOffsetY := size, shadowBlur := b,
    centerX := -1 * halfSize, centerY := -1 * halfSize, arcRadius := r }

/-- The layer-level configuration `handleRender_` reads: radius, blur, the
stored (never read back) `shadow_` option, the gradient lookup table
`gradient_` (byte access into the 256 x 4 `Uint8ClampedArray`), and the bound
weight accessor `weight_` (an attribute lookup or a user-supplied function;
a user function may throw, hence `Except`). -/
structure HilomapLayer where
  radius : ℚ
  blur : ℚ
  shadow : ℚ
  grad : ℤ → ℕ
  weightF : Feature → Except String ℚ

/-- `createCircle_` as invoked on a layer. -/
def createCircle (L : HilomapLayer) (scaleRatio : ℚ) : StampSpec :=
  createCircleRB L.radius L.blur scaleRatio

/-- The zoom ratio computed at the top of `handleRender_`: the first frame
records the resolution as baseline; afterwards
`zoomRatio = baseResolution / newResolution` whenever
`Math.abs(newResolution - baseResolution) > 0.00001` (the literal `0.00001`
is modelled by `1/100000`; view resolutions are positive finite values, for
which the comparison agrees). -/
def zoomROf (baseRes0 : Option ℚ) (resolution : ℚ) : ℚ :=
  let base := baseRes0.getD resolution
  if |resolution - base| > 1 / 100000 then base / resolution else 1

/-- The scaled stamp reach `(getRadius() + getBlur() + 1) * pixelRatio *
zoomRatio` used both as draw offset and for the cell size. -/
def stampReach (radius blur pxRatio zRatio : ℚ) : ℚ :=
  (radius + blur + 1) * pxRatio * zRatio

/-- The coarsening cell size: `Math.round(radius / 2)`, bumped to 1 when it
rounds to 0. -/
def cellSizeOf (reach : ℚ) : ℤ :=
  let c := jsRound (reach / 2)
  if c = 0 then 1 else c

/-- Everything observable the render handler produces: the canvas operations
issued against the event canvas, the image written back by `putImageData`
(when any), the stamp built for this frame, and the base resolution retained
in `baseResolution_`. -/
structure RenderOutput where
  ops : List CanvasOp
  image : Option (List Pixel)
  stamp : StampSpec
  baseResolution : ℚ
  deriving DecidableEq

/-- `handleRender_` with the used layer state passed explicitly (radius,
blur, gradient table, weight accessor): establish the resolution baseline and
zoom ratio, build the frame's stamp and cell size, locate the visible layer
(early return when absent), coarsen the features onto the sparse grid,
and — only when the coarsened `pointset` is non-empty — run the three draw
rounds, read back the low/high alpha buffers and the final image, resolve
the signed intensities through the gradient, rescale the alpha channel by
the tracked range, and write the image back.  The source has no exception
handling, so a failing weight accessor propagates. -/
def pipeline (radius blur : ℚ) (grad : ℤ → ℕ) (weightF : Feature → Except String ℚ)
    (host : CanvasHost) (baseRes0 : Option ℚ) (ev : FrameEvent) :
    Except String RenderOutput := do
  let baseRes := baseRes0.getD ev.resolution
  let zoomR := zoomROf baseRes0 ev.resolution
  let stamp := createCircleRB radius blur (ev.pixelRatio * zoomR)
  let reach := stampReach radius blur ev.pixelRatio zoomR
  let cellSize := cellSizeOf reach
  match ev.layer with
  | none => pure ⟨[], none, stamp, baseRes⟩
  | some features => do
    let grid ← coarsen weightF ev cellSize features
    let pointset := extractPoints grid
    if 0 < pointset.length then
      let p1 := pass1 reach pointset
      let ops1 : List CanvasOp := CanvasOp.clearRect :: p1.1
      let ops2 : List CanvasOp := ops1 ++ CanvasOp.clearRect :: pass2 reach p1.2
      let ops3 : List CanvasOp := ops2 ++ CanvasOp.clearRect :: pass3 reach pointset
      let loA := alphasOf (runOps host ops1)
      let hiA := alphasOf (runOps host ops2)
      let img := runOps host ops3
      let r := resolveLoop grad (img.zip (hiA.zip loA)) 255 0
      let finalImage := rescaleImage r.2.1 r.2.2 r.1
      pure ⟨ops3 ++ [CanvasOp.putImage], some finalImage, stamp, baseRes⟩
    else
      pure ⟨[], none, stamp, baseRes⟩

/-- The render handler as bound on the layer. -/
def handleRender (L : HilomapLayer) (host : CanvasHost) (baseRes0 : Option ℚ)
    (ev : FrameEvent) : Except String RenderOutput :=
  pipeline L.radius L.blur L.grad L.weightF host baseRes0 ev

/-- CSS color strings of the gradient configuration. -/
abbrev Color : Type := String

/-- The color-stop offsets `createGradient` registers on its canvas linear
gradient: `step = 1 / (colors.length - 1)` and stop `i` is added at offset
`i * step`.  With exactly one color, `step` is `1/0 = Infinity` and the
offset `0 * Infinity` is NaN, which `addColorStop` rejects (an offset outside
`[0, 1]` throws an `IndexSizeError` per the HTML canvas specification) — the
build fails.  With no colors the loop body never runs and an empty stop list
is returned (the fill then samples a stopless gradient: transparent black
everywhere). -/
def gradientStops (colors : List Color) : Except String (List (ℚ × Color)) :=
  if colors.length = 1 then Except.error "IndexSizeError"
  else
    Except.ok (colors.enum.map
      (fun ic => ((ic.1 : ℚ) * (1 / ((colors.length : ℚ) - 1)), ic.2)))

/-- The resolve loop is the pointwise recoloring together with running
minimum/maximum folds of the signed intensities over arbitrary initial
accumulators. -/
theorem resolveLoop_eq (grad : ℤ → ℕ) (l : List (Pixel × ℕ × ℕ)) :
    ∀ wMin wMax : ℤ,
      resolveLoop grad l wMin wMax =
        (l.map (fun t => colorPixel grad t.1 (signedW t.2.1 t.2.2)),
         (l.map (fun t => signedW t.2.1 t.2.2)).foldl min wMin,
         (l.map (fun t => signedW t.2.1 t.2.2)).foldl max wMax) := by
  induction l with
  | nil => intro wMin wMax; rfl
  | cons t rest ih =>
    intro wMin wMax
    have hmin : (if signedW t.2.1 t.2.2 < wMin then signedW t.2.1 t.2.2 else wMin) =
        min wMin (signedW t.2.1 t.2.2) := by
      rcases lt_or_le (signedW t.2.1 t.2.2) wMin with h | h
      · rw [if_pos h, min_eq_right h.le]
      · rw [if_neg (not_lt.mpr h), min_eq_left h]
    have hmax : (if signedW t.2.1 t.2.2 > wMax then signedW t.2.1 t.2.2 else wMax) =
        max wMax (signedW t.2.1 t.2.2) := by
      rcases lt_or_le wMax (signedW t.2.1 t.2.2) with h | h
      · rw [if_pos h, max_eq_right h.le]
      · rw [if_neg (not_lt.mpr h), max_eq_left h]
    simp only [resolveLoop, List.map, List.foldl, ih, hmin, hmax]

/-- Claim C5: per pixel the signed intensity is
`clamp(round(128 + (highAlpha - lowAlpha)/2), 0, 255)`; the loop tracks the
minimum and maximum of this value over all pixels (from initial accumulators
255 and 0); the RGB channels are overwritten with the gradient entry at
byte offset `signed * 4` exactly when the signed value is nonzero; and the
alpha channel is untouched by the lookup step. -/
theorem claim_C5 (grad : ℤ → ℕ) (l : List (Pixel × ℕ × ℕ)) :
    resolveLoop grad l 255 0 =
      (l.map (fun t => colorPixel grad t.1 (signedW t.2.1 t.2.2)),
       (l.map (fun t => signedW t.2.1 t.2.2)).foldl min 255,
       (l.map (fun t => signedW t.2.1 t.2.2)).foldl max 0) ∧
    (∀ hi lo : ℕ,
      signedW hi lo = clampI (jsRound ((128 : ℚ) + ((hi : ℚ) - (lo : ℚ)) / 2)) 0 255) ∧
    (∀ (p : Pixel) (w : ℤ), (colorPixel grad p w).a = p.a) ∧
    (∀ (p : Pixel) (w : ℤ), w ≠ 0 →
      colorPixel grad p w = ⟨grad (w * 4), grad (w * 4 + 1), grad (w * 4 + 2), p.a⟩) ∧
    (∀ p : Pixel, colorPixel grad p 0 = p) := by
  refine ⟨resolveLoop_eq grad l 255 0, fun hi lo => rfl, ?_, ?_, ?_⟩
  · intro p w
    by_cases h : w * 4 ≠ 0 <;> simp [colorPixel, h]
  · intro p w hw
    have h : w * 4 ≠ 0 := mul_ne_zero hw (by norm_num)
    simp [colorPixel, h]
  · intro p
    simp [colorPixel]

/-- Witness for C5 at a concrete gradient, pixel and signed value. -/
theorem claim_C5_witness :
    (colorPixel (fun _ => 7) ⟨1, 2, 3, 9⟩ 5).a = 9 ∧
    colorPixel (fun _ => 7) ⟨1, 2, 3, 9⟩ 5 = ⟨7, 7, 7, 9⟩ :=
  ⟨(claim_C5 (fun _ => 7) []).2.2.1 ⟨1, 2, 3, 9⟩ 5,
   (claim_C5 (fun _ => 7) []).2.2.2.1 ⟨1, 2, 3, 9⟩ 5 (by decide)⟩

/-- Claim C6: for positive radius, non-negative blur and positive scale, the
stamp raster is square with side `2 * (radius * scale + blur * scale + 1)`. -/
theorem claim_C6 (L : HilomapLayer) (s : ℚ) (_hr : 0 < L.radius) (_hb : 0 ≤ L.blur)
    (_hs : 0 < s) :
    (createCircle L s).width = 2 * (L.radius * s + L.blur * s + 1) ∧
    (createCircle L s).height = 2 * (L.radius * s + L.blur * s + 1) := by
  constructor <;> simp [createCircle, createCircleRB]

/-- Witness for C6: radius 5, blur 5, scale 2 give a square stamp of side
42. -/
theorem claim_C6_witness :
    (0 : ℚ) < 5 ∧ (0 : ℚ) ≤ 5 ∧ (0 : ℚ) < 2 ∧
    (createCircle ⟨5, 5, 250, fun _ => 0, fun _ => Except.ok 1⟩ 2).width = 42 ∧
    (createCircle ⟨5, 5, 250, fun _ => 0, fun _ => Except.ok 1⟩ 2).height = 42 := by
  have h := claim_C6 ⟨5, 5, 250, fun _ => 0, fun _ => Except.ok 1⟩ 2
    (by norm_num) (by norm_num) (by norm_num)
  refine ⟨by norm_num, by norm_num, by norm_num, ?_, ?_⟩
  · rw [h.1]; norm_num
  · rw [h.2]; norm_num

/-- Claim C8: the stored `shadow` option never influences the rendered
output: two layers that differ only in `shadow` produce the same stamp and
the same render result (operations, written-back image, everything) on every
render event. -/
theorem claim_C8 (L : HilomapLayer) (s : ℚ) (scaleRatio : ℚ) (host : CanvasHost)
    (baseRes0 : Option ℚ) (ev : FrameEvent) :
    createCircle { L with shadow := s } scaleRatio = createCircle L scaleRatio ∧
    handleRender { L with shadow := s } host baseRes0 ev =
      handleRender L host baseRes0 ev :=
  ⟨rfl, rfl⟩

/-- Claim C2: a render event whose coarsened point set is empty is a no-op on
the canvas: no operation at all is issued (in particular no `clearRect` and
no `putImageData`), and executing the issued operations leaves the canvas
contents exactly as they were. -/
theorem claim_C2 (L : HilomapLayer) (host : CanvasHost) (baseRes0 : Option ℚ)
    (ev : FrameEvent) (features : List Feature) (grid : Grid)
    (hlayer : ev.layer = some features)
    (hgrid : coarsen L.weightF ev
        (cellSizeOf (stampReach L.radius L.blur ev.pixelRatio
          (zoomROf baseRes0 ev.resolution))) features = Except.ok grid)
    (hempty : extractPoints grid = []) :
    ∃ out : RenderOutput,
      handleRender L host baseRes0 ev = Except.ok out ∧
      out.ops = [] ∧ out.image = none ∧
      runOps host out.ops = host.init := by
  refine ⟨⟨[], none,
      createCircleRB L.radius L.blur (ev.pixelRatio * zoomROf baseRes0 ev.resolution),
      baseRes0.getD ev.resolution⟩, ?_, rfl, rfl, rfl⟩
  unfold handleRender pipeline
  simp only [hlayer]
  rw [hgrid]
  have hred : ∀ f : Grid → Except String RenderOutput, (Except.ok grid >>= f) = f grid :=
    fun f => rfl
  rw [hred]
  simp only [hempty]
  rfl

/-- Witness for C2: a frame whose layer holds no features coarsens to the
empty point set and leaves the canvas untouched. -/
theorem claim_C2_witness :
    ∃ out : RenderOutput,
      handleRender ⟨5, 5, 250, fun _ => 0, fun _ => Except.ok 1⟩
        ⟨2, 1, fun _ _ _ c => c, [⟨1, 2, 3, 4⟩, ⟨5, 6, 7, 8⟩]⟩ none
        ⟨0, 0, 10, 10, 1, 1, id, 2, 1, some []⟩ = Except.ok out ∧
      out.ops = [] ∧ out.image = none ∧
      runOps ⟨2, 1, fun _ _ _ c => c, [⟨1, 2, 3, 4⟩, ⟨5, 6, 7, 8⟩]⟩ out.ops =
        [⟨1, 2, 3, 4⟩, ⟨5, 6, 7, 8⟩] :=
  claim_C2 ⟨5, 5, 250, fun _ => 0, fun _ => Except.ok 1⟩
    ⟨2, 1, fun _ _ _ c => c, [⟨1, 2, 3, 4⟩, ⟨5, 6, 7, 8⟩]⟩ none
    ⟨0, 0, 10, 10, 1, 1, id, 2, 1, some []⟩ [] [] rfl rfl rfl

/-- The cell representative after any same-cell feature sequence is the
first-seen point attaining the maximal distance from the 0.5 midpoint:
the sequence splits as `l1 ++ rep :: l2` where everything in `l1` is
strictly closer to 0.5 and nothing in the whole sequence is farther. -/
theorem cellFold_first (ps : List Pt) : ∀ p0 : Pt, ∃ l1 l2 : List Pt,
    p0 :: ps = l1 ++ cellFold p0 ps :: l2 ∧
    (∀ q ∈ l1, distHalf q.w < distHalf (cellFold p0 ps).w) ∧
    (∀ q ∈ p0 :: ps, distHalf q.w ≤ distHalf (cellFold p0 ps).w) := by
  induction ps with
  | nil =>
    intro p0
    exact ⟨[], [], rfl, by simp, by simp [cellFold]⟩
  | cons q ps ih =>
    intro p0
    have hfold : cellFold p0 (q :: ps) = cellFold (cellUpdate p0 q.px q.py q.w) ps := rfl
    by_cases h : distHalf q.w > distHalf p0.w
    · have hup : cellUpdate p0 q.px q.py q.w = q := by
        simp only [cellUpdate, if_pos h]
      rw [hfold, hup]
      obtain ⟨l1, l2, heq, hlt, hle⟩ := ih q
      cases l1 with
      | nil =>
        simp only [List.nil_append] at heq
        have hq : q = cellFold q ps := (List.cons.injEq _ _ _ _).mp heq |>.1
        refine ⟨[p0], l2, ?_, ?_, ?_⟩
        · simpa using heq
        · intro x hx
          rcases List.mem_singleton.mp hx with rfl
          exact lt_of_lt_of_le h (hq ▸ le_refl _)
        · intro x hx
          rcases List.mem_cons.mp hx with rfl | hx
          · exact le_of_lt (lt_of_lt_of_le h (hq ▸ le_refl _))
          · exact hle x hx
      | cons a t =>
        have ha : a = q ∧ q :: ps = a :: (t ++ cellFold q ps :: l2) := by
          constructor
          · have := congrArg (fun l => l.head?) heq
            simpa using this.symm
          · simpa using heq
        refine ⟨p0 :: a :: t, l2, ?_, ?_, ?_⟩
        · simpa using ha.2
        · intro x hx
          rcases List.mem_cons.mp hx with rfl | hx
          · have haq : distHalf a.w < distHalf (cellFold q ps).w :=
              hlt a (List.mem_cons_self a t)
            exact lt_trans (ha.1 ▸ h) haq
          · exact hlt x hx
        · intro x hx
          rcases List.mem_cons.mp hx with rfl | hx
          · have haq : distHalf a.w < distHalf (cellFold q ps).w :=
              hlt a (List.mem_cons_self a t)
            exact le_of_lt (lt_trans (ha.1 ▸ h) haq)
          · exact hle x hx
    · have hup : cellUpdate p0 q.px q.py q.w = p0 := by
        simp only [cellUpdate, if_neg h]
      rw [hfold, hup]
      have hqle : distHalf q.w ≤ distHalf p0.w := not_lt.mp h
      obtain ⟨l1, l2, heq, hlt, hle⟩ := ih p0
      have hp0 : distHalf p0.w ≤ distHalf (cellFold p0 ps).w :=
        hle p0 (List.mem_cons_self p0 ps)
      cases l1 with
      | nil =>
        simp only [List.nil_append] at heq
        have hp : p0 = cellFold p0 ps := (List.cons.injEq _ _ _ _).mp heq |>.1
        refine ⟨[], q :: ps, ?_, by simp, ?_⟩
        · rw [List.nil_append, ← hp]
        · intro x hx
          rcases List.mem_cons.mp hx with rfl | hx
          · exact hle x (List.mem_cons_self x ps)
          · rcases List.mem_cons.mp hx with rfl | hx
            · exact le_trans hqle hp0
            · exact hle x (List.mem_cons_of_mem p0 hx)
      | cons a t =>
        have ha : a = p0 ∧ p0 :: ps = a :: (t ++ cellFold p0 ps :: l2) := by
          constructor
          · have := congrArg (fun l => l.head?) heq
            simpa using this.symm
          · simpa using heq
        have hps : ps = t ++ cellFold p0 ps :: l2 := by
          have := ha.2
          rw [ha.1] at this
          exact (List.cons.injEq _ _ _ _).mp this |>.2
        refine ⟨p0 :: q :: t, l2, ?_, ?_, ?_⟩
        · show p0 :: q :: ps = (p0 :: q :: t) ++ cellFold p0 ps :: l2
          rw [List.cons_append, List.cons_append, ← hps]
        · intro x hx
          have hp0lt : distHalf p0.w < distHalf (cellFold p0 ps).w :=
            ha.1 ▸ hlt a (List.mem_cons_self a t)
          rcases List.mem_cons.mp hx with rfl | hx
          · exact hp0lt
          · rcases List.mem_cons.mp hx with rfl | hx
            · exact lt_of_le_of_lt hqle hp0lt
            · exact hlt x (List.mem_cons_of_mem a hx)
        · intro x hx
          have hp0lt : distHalf p0.w < distHalf (cellFold p0 ps).w :=
            ha.1 ▸ hlt a (List.mem_cons_self a t)
          rcases List.mem_cons.mp hx with rfl | hx
          · exact hp0
          · rcases List.mem_cons.mp hx with rfl | hx
            · exact le_trans hqle hp0
            · exact hle x (List.mem_cons_of_mem p0 hx)

/-- Claim C3: within a grid cell the retained representative is the point
whose weight is farthest from 0.5 under the strict comparison, first-seen
winning exact ties; concretely, same-cell weights 0.2 and 0.95 retain
0.95. -/
theorem claim_C3 :
    (∀ (p0 : Pt) (ps : List Pt), ∃ l1 l2 : List Pt,
      p0 :: ps = l1 ++ cellFold p0 ps :: l2 ∧
      (∀ q ∈ l1, distHalf q.w < distHalf (cellFold p0 ps).w) ∧
      (∀ q ∈ p0 :: ps, distHalf q.w ≤ distHalf (cellFold p0 ps).w)) ∧
    gridInsert (gridInsert [] (0, 0) 0 0 (1/5)) (0, 0) 1 1 (19/20) =
      [((0, 0), ⟨1, 1, 19/20⟩)] ∧
    (cellFold ⟨0, 0, 1/5⟩ [⟨1, 1, 19/20⟩]).w = 19/20 := by
  have hcmp : distHalf ((5 : ℚ)⁻¹) < distHalf ((19 : ℚ)/20) := by
    unfold distHalf
    rw [abs_of_nonpos (by norm_num), abs_of_nonneg (by norm_num)]
    norm_num
  refine ⟨fun p0 ps => cellFold_first ps p0, ?_, ?_⟩
  · simp [gridInsert, gridFind, cellUpdate, hcmp, List.find?]
  · simp [cellFold, cellUpdate, hcmp]

/-- Witness for C3 at the concrete same-cell pair of weights 0.2 and 0.95. -/
theorem claim_C3_witness : (cellFold ⟨0, 0, 1/5⟩ [⟨1, 1, 19/20⟩]).w = 19/20 :=
  claim_C3.2.2

/-- The fold of draw round 1, from an arbitrary accumulator: the issued draw
operations are those of the weight-at-most-half points in order, and the
accumulated `hipoints` are the remaining points in order. -/
theorem pass1_go (radius : ℚ) (ps : List Pt) : ∀ acc : List CanvasOp × List Pt,
    ps.foldl
        (fun acc p =>
          if p.w ≤ 1 / 2 then (acc.1 ++ [drawPoint (lowOpacity p.w) radius p], acc.2)
          else (acc.1, acc.2 ++ [p]))
        acc =
      (acc.1 ++ (ps.filter (fun p => p.w ≤ 1 / 2)).map
          (fun p => drawPoint (lowOpacity p.w) radius p),
       acc.2 ++ ps.filter (fun p => ¬ p.w ≤ 1 / 2)) := by
  induction ps with
  | nil => intro acc; simp
  | cons p ps ih =>
    intro acc
    rw [List.foldl_cons, ih]
    simp only [List.filter_cons, decide_eq_true_eq]
    by_cases h : p.w ≤ 1 / 2
    · rw [if_pos h, if_pos h, if_neg (not_not_intro h)]
      simp [List.append_assoc]
    · rw [if_neg h, if_neg h, if_pos h]
      simp [List.append_assoc]

/-- Draw round 1 splits `pointset` into low draws and `hipoints`. -/
theorem pass1_eq (radius : ℚ) (ps : List Pt) :
    pass1 radius ps =
      ((ps.filter (fun p => p.w ≤ 1 / 2)).map
        (fun p => drawPoint (lowOpacity p.w) radius p),
       ps.filter (fun p => ¬ p.w ≤ 1 / 2)) := by
  have h := pass1_go radius ps ([], [])
  simpa [pass1] using h

/-- Executing any operation list that ends in a `clearRect` leaves a fully
cleared canvas. -/
theorem runOps_clear_last (host : CanvasHost) (ops : List CanvasOp) :
    runOps host (ops ++ [CanvasOp.clearRect]) =
      clearedCanvas host.width host.height := by
  simp [runOps, List.foldl_append]

/-- The alpha channel of a cleared canvas is all-zero. -/
theorem alphasOf_cleared (w h : ℕ) :
    alphasOf (clearedCanvas w h) = List.replicate (w * h) 0 := by
  simp [alphasOf, clearedCanvas]

/-- Claim C4: each point with weight at most 0.5 is drawn only in the low
pass with opacity `(0.5 - w) * 2`; each point with weight above 0.5 is drawn
only in the high pass with opacity `(w - 0.5) * 2`; the final pass redraws
every point with the same per-point opacity formula.  A single point of
weight 0.3 leaves the high pass with no draw at all, so the high alpha
buffer read back after its clear is all-zero (for any host compositing
semantics); a single point of weight 0.8 symmetrically leaves the low pass
empty, with the low buffer all-zero, and produces exactly one high-pass
draw. -/
theorem claim_C4 (radius : ℚ) (ps : List Pt) (x y : ℤ) (host : CanvasHost) :
    (pass1 radius ps).1 =
      (ps.filter (fun p => p.w ≤ 1 / 2)).map
        (fun p => drawPoint (lowOpacity p.w) radius p) ∧
    (pass1 radius ps).2 = ps.filter (fun p => ¬ p.w ≤ 1 / 2) ∧
    pass2 radius (pass1 radius ps).2 =
      (ps.filter (fun p => ¬ p.w ≤ 1 / 2)).map
        (fun p => drawPoint (highOpacity p.w) radius p) ∧
    pass3 radius ps =
      ps.map (fun p =>
        drawPoint (if p.w ≤ 1 / 2 then lowOpacity p.w else highOpacity p.w) radius p) ∧
    (pass1 radius [⟨x, y, 3/10⟩]).1 =
      [drawPoint (lowOpacity (3/10)) radius ⟨x, y, 3/10⟩] ∧
    pass2 radius (pass1 radius [⟨x, y, 3/10⟩]).2 = [] ∧
    alphasOf (runOps host
        (CanvasOp.clearRect :: (pass1 radius [⟨x, y, 3/10⟩]).1 ++
          CanvasOp.clearRect :: pass2 radius (pass1 radius [⟨x, y, 3/10⟩]).2)) =
      List.replicate (host.width * host.height) 0 ∧
    (pass1 radius [⟨x, y, 4/5⟩]).1 = [] ∧
    alphasOf (runOps host (CanvasOp.clearRect :: (pass1 radius [⟨x, y, 4/5⟩]).1)) =
      List.replicate (host.width * host.height) 0 ∧
    pass2 radius (pass1 radius [⟨x, y, 4/5⟩]).2 =
      [drawPoint (highOpacity (4/5)) radius ⟨x, y, 4/5⟩] := by
  have hlow : ((3 : ℚ)/10) ≤ 1 / 2 := by norm_num
  have hhigh : ¬ ((4 : ℚ)/5) ≤ 1 / 2 := by norm_num
  have h1a : (pass1 radius [⟨x, y, 3/10⟩]).1 =
      [drawPoint (lowOpacity (3/10)) radius ⟨x, y, 3/10⟩] := by
    rw [pass1_eq]
    simp only [List.filter_cons, List.filter_nil, decide_eq_true_eq]
    rw [if_pos hlow]
    rfl
  have h1b : (pass1 radius [⟨x, y, 3/10⟩]).2 = [] := by
    rw [pass1_eq]
    simp only [List.filter_cons, List.filter_nil, decide_eq_true_eq]
    rw [if_neg (not_not_intro hlow)]
  have h2a : (pass1 radius [⟨x, y, 4/5⟩]).1 = [] := by
    rw [pass1_eq]
    simp only [List.filter_cons, List.filter_nil, decide_eq_true_eq]
    rw [if_neg hhigh]
    rfl
  have h2b : (pass1 radius [⟨x, y, 4/5⟩]).2 = [⟨x, y, 4/5⟩] := by
    rw [pass1_eq]
    simp only [List.filter_cons, List.filter_nil, decide_eq_true_eq]
    rw [if_pos hhigh]
  refine ⟨?_, ?_, ?_, rfl, h1a, ?_, ?_, h2a, ?_, ?_⟩
  · rw [pass1_eq]
  · rw [pass1_eq]
  · rw [pass1_eq]
    rfl
  · rw [h1b]
    rfl
  · rw [h1b]
    show alphasOf (runOps host
      ((CanvasOp.clearRect :: (pass1 radius [⟨x, y, 3/10⟩]).1) ++ [CanvasOp.clearRect])) = _
    rw [runOps_clear_last, alphasOf_cleared]
  · rw [h2a]
    show alphasOf (runOps host ([] ++ [CanvasOp.clearRect])) = _
    rw [runOps_clear_last, alphasOf_cleared]
  · rw [h2b]
    rfl

/-- When the tracked minimum and maximum coincide, the rescale division is a
division by zero: a pixel whose alpha equals `wMin` yields NaN (stored as 0),
one below yields negative infinity (stored as 0), one above yields positive
infinity (stored as 255). -/
theorem rescaleAlpha_degenerate (s : ℤ) (a : ℕ) :
    rescaleAlpha s s a = if s < (a : ℤ) then 255 else 0 := by
  unfold rescaleAlpha jsDivZ
  rw [sub_self, if_pos rfl]
  rcases lt_trichotomy ((a : ℤ) - s) 0 with h | h | h
  · have hne : ((a : ℤ) - s) * 255 ≠ 0 := by
      intro hc
      rcases mul_eq_zero.mp hc with hc | hc
      · omega
      · norm_num at hc
    have hneg : ¬ (0 < ((a : ℤ) - s) * 255) := by
      intro hc
      nlinarith
    rw [if_neg hne, if_neg hneg]
    have : ¬ s < (a : ℤ) := by omega
    rw [if_neg this]
    rfl
  · have hz : ((a : ℤ) - s) * 255 = 0 := by rw [h]; ring
    rw [if_pos hz]
    have : ¬ s < (a : ℤ) := by omega
    rw [if_neg this]
    rfl
  · have hne : ((a : ℤ) - s) * 255 ≠ 0 := by
      intro hc
      rcases mul_eq_zero.mp hc with hc | hc
      · omega
      · norm_num at hc
    have hpos : 0 < ((a : ℤ) - s) * 255 := by nlinarith
    rw [if_neg hne, if_pos hpos]
    have : s < (a : ℤ) := by omega
    rw [if_pos this]
    rfl

/-- The signed intensity is clamped into `[0, 255]`. -/
theorem signedW_bounds (hi lo : ℕ) : 0 ≤ signedW hi lo ∧ signedW hi lo ≤ 255 := by
  unfold signedW clampI
  constructor
  · exact le_min (le_max_right _ _) (by norm_num)
  · exact min_le_right _ _

/-- Folding `min` over a constant non-empty list from an accumulator at least
the constant collapses to the constant. -/
theorem foldl_min_const (s : ℤ) : ∀ (ws : List ℤ) (a : ℤ),
    (∀ w ∈ ws, w = s) → ws ≠ [] → s ≤ a → ws.foldl min a = s := by
  intro ws
  induction ws with
  | nil => intro a _ hne _; exact absurd rfl hne
  | cons w t ih =>
    intro a hall _ hsa
    have hw : w = s := hall w (List.mem_cons_self w t)
    rw [List.foldl_cons, hw, min_eq_right hsa]
    cases t with
    | nil => rfl
    | cons u t' =>
      exact ih s (fun v hv => hall v (List.mem_cons_of_mem w hv)) (by simp) le_rfl

/-- Folding `max` over a constant non-empty list from an accumulator at most
the constant collapses to the constant. -/
theorem foldl_max_const (s : ℤ) : ∀ (ws : List ℤ) (a : ℤ),
    (∀ w ∈ ws, w = s) → ws ≠ [] → a ≤ s → ws.foldl max a = s := by
  intro ws
  induction ws with
  | nil => intro a _ hne _; exact absurd rfl hne
  | cons w t ih =>
    intro a hall _ has
    have hw : w = s := hall w (List.mem_cons_self w t)
    rw [List.foldl_cons, hw, max_eq_right has]
    cases t with
    | nil => rfl
    | cons u t' =>
      exact ih s (fun v hv => hall v (List.mem_cons_of_mem w hv)) (by simp) le_rfl

/-- Counterexample to claim C1: with `wMin = wMax = 128` tracked from a
uniform frame (here one pixel with equal high and low alphas), the rescale
pass is not skipped — the division by zero produces positive infinity for
the pixel's alpha 200, and the clamped store writes 255, so the alpha is
both changed and not transparent. -/
theorem claim_C1_counterexample :
    resolveLoop (fun _ => 9) [(⟨0, 0, 0, 200⟩, 100, 100)] 255 0 =
      ([⟨9, 9, 9, 200⟩], 128, 128) ∧
    rescaleImage 128 128 [⟨9, 9, 9, 200⟩] = [⟨9, 9, 9, 255⟩] ∧
    (⟨9, 9, 9, 255⟩ : Pixel) ≠ ⟨9, 9, 9, 200⟩ ∧ (255 : ℕ) ≠ 0 := by
  have hsw : signedW 100 100 = 128 := by
    unfold signedW jsRound
    norm_num
    rfl
  refine ⟨?_, ?_, by decide, by decide⟩
  · rw [resolveLoop_eq]
    simp only [List.map_cons, List.map_nil, List.foldl_cons, List.foldl_nil]
    rw [hsw]
    norm_num [colorPixel]
  · rw [rescaleImage]
    norm_num [rescaleAlpha_degenerate]

/-- Claim C1 as amended: when every pixel of a (non-empty) frame has the same
signed intensity `s`, the tracked minimum and maximum both equal `s`, and the
rescale pass still runs, dividing by zero: every pixel's alpha becomes 255
when it exceeds `s` and 0 otherwise (NaN and negative infinity are stored as
0, positive infinity as 255, by the `Uint8ClampedArray` store) — the pass is
not skipped and the output is not in general all-transparent. -/
theorem claim_C1_amended (grad : ℤ → ℕ) (l : List (Pixel × ℕ × ℕ)) (s : ℤ)
    (hne : l ≠ []) (hall : ∀ t ∈ l, signedW t.2.1 t.2.2 = s) :
    (resolveLoop grad l 255 0).2.1 = s ∧ (resolveLoop grad l 255 0).2.2 = s ∧
    rescaleImage s s (resolveLoop grad l 255 0).1 =
      (resolveLoop grad l 255 0).1.map
        (fun p => ⟨p.r, p.g, p.b, if s < (p.a : ℤ) then 255 else 0⟩) := by
  obtain ⟨t0, ht0⟩ : ∃ t, t ∈ l := by
    cases l with
    | nil => exact absurd rfl hne
    | cons t l' => exact ⟨t, List.mem_cons_self t l'⟩
  have hs0 : 0 ≤ s := (hall t0 ht0) ▸ (signedW_bounds t0.2.1 t0.2.2).1
  have hs255 : s ≤ 255 := (hall t0 ht0) ▸ (signedW_bounds t0.2.1 t0.2.2).2
  have hmape : ∀ w ∈ l.map (fun t => signedW t.2.1 t.2.2), w = s := by
    intro w hw
    obtain ⟨t, ht, rfl⟩ := List.mem_map.mp hw
    exact hall t ht
  have hmapne : l.map (fun t => signedW t.2.1 t.2.2) ≠ [] := by
    cases l with
    | nil => exact absurd rfl hne
    | cons t l' => simp
  rw [resolveLoop_eq]
  refine ⟨foldl_min_const s _ 255 hmape hmapne hs255,
    foldl_max_const s _ 0 hmape hmapne hs0, ?_⟩
  rw [rescaleImage]
  refine List.map_congr_left ?_
  intro p _
  rw [rescaleAlpha_degenerate]

/-- Witness for the amended C1 at a concrete one-pixel uniform frame. -/
theorem claim_C1_witness :
    (resolveLoop (fun _ => 9) [(⟨0, 0, 0, 5⟩, 10, 10)] 255 0).2.1 = 128 ∧
    (resolveLoop (fun _ => 9) [(⟨0, 0, 0, 5⟩, 10, 10)] 255 0).2.2 = 128 ∧
    rescaleImage 128 128 (resolveLoop (fun _ => 9) [(⟨0, 0, 0, 5⟩, 10, 10)] 255 0).1 =
      (resolveLoop (fun _ => 9) [(⟨0, 0, 0, 5⟩, 10, 10)] 255 0).1.map
        (fun p => ⟨p.r, p.g, p.b, if (128 : ℤ) < (p.a : ℤ) then 255 else 0⟩) :=
  claim_C1_amended (fun _ => 9) [(⟨0, 0, 0, 5⟩, 10, 10)] 128 (by simp)
    (by
      intro t ht
      rcases List.mem_singleton.mp ht with rfl
      unfold signedW jsRound
      norm_num
      rfl)

/-- Claim C7: with fewer than 2 color stops the gradient build never yields a
stop list that anchors a valid ramp (a valid gradient table needs at least
two anchored stops; with one color the build throws, with zero colors the
stop list is empty); with at least 2 stops, stop `i` of `n` is anchored at
offset `i / (n - 1)`. -/
theorem claim_C7 :
    (∀ colors : List Color, colors.length < 2 →
      ∀ stops, gradientStops colors = Except.ok stops → stops.length < 2) ∧
    (∀ colors : List Color, 2 ≤ colors.length →
      ∃ stops, gradientStops colors = Except.ok stops ∧
        stops.length = colors.length ∧
        ∀ (i : ℕ) (c : Color), colors[i]? = some c →
          stops[i]? = some ((i : ℚ) / ((colors.length : ℚ) - 1), c)) := by
  constructor
  · intro colors hlen stops hok
    match colors, hlen with
    | [], _ =>
      have : stops = [] := by
        simpa [gradientStops] using hok.symm
      simp [this]
    | [c], _ =>
      simp [gradientStops] at hok
  · intro colors hlen
    have hne : colors.length ≠ 1 := by omega
    refine ⟨colors.enum.map
      (fun ic => ((ic.1 : ℚ) * (1 / ((colors.length : ℚ) - 1)), ic.2)), ?_, ?_, ?_⟩
    · simp [gradientStops, hne]
    · simp
    · intro i c hc
      rw [List.getElem?_map, List.getElem?_enum, hc]
      simp only [Option.map_some']
      rw [mul_one_div]

/-- Witness for C7: one stop fails the validity bound; two stops anchor at
0 and 1. -/
theorem claim_C7_witness :
    (∀ stops, gradientStops ["a"] = Except.ok stops → stops.length < 2) ∧
    (∃ stops, gradientStops ["red", "blue"] = Except.ok stops ∧
      stops.length = (["red", "blue"] : List Color).length ∧
      ∀ (i : ℕ) (c : Color), (["red", "blue"] : List Color)[i]? = some c →
        stops[i]? = some ((i : ℚ) / (((["red", "blue"] : List Color).length : ℚ) - 1), c)) :=
  ⟨claim_C7.1 ["a"] (by norm_num), claim_C7.2 ["red", "blue"] (by norm_num)⟩

/-- Every feature fold whose weight accessor always succeeds reaches the end
of the grid-fill loop. -/
theorem coarsen_ok (weightF : Feature → Except String ℚ) (ev : FrameEvent)
    (cellSize : ℤ) (hw : ∀ f, ∃ q, weightF f = Except.ok q) :
    ∀ (features : List Feature) (g : Grid),
      ∃ g', List.foldlM (featureStep weightF ev cellSize) g features = Except.ok g' := by
  intro features
  induction features with
  | nil => intro g; exact ⟨g, rfl⟩
  | cons f fs ih =>
    intro g
    have hstep : ∃ g2, featureStep weightF ev cellSize g f = Except.ok g2 := by
      unfold featureStep
      by_cases hskip : f.x < ev.minx ∨ f.y < ev.miny ∨ f.x > ev.maxx ∨ f.y > ev.maxy
      · exact ⟨g, by rw [if_pos hskip]; rfl⟩
      · obtain ⟨q, hq⟩ := hw f
        rw [if_neg hskip]
        refine ⟨gridInsert g
          (⌊(jsRound ((ev.toPixel (f.x, f.y)).2 * ev.pixelRatio) : ℚ) / (cellSize : ℚ)⌋,
           ⌊(jsRound ((ev.toPixel (f.x, f.y)).1 * ev.pixelRatio) : ℚ) / (cellSize : ℚ)⌋)
          (jsRound ((ev.toPixel (f.x, f.y)).1 * ev.pixelRatio))
          (jsRound ((ev.toPixel (f.x, f.y)).2 * ev.pixelRatio)) q, ?_⟩
        show (weightF f >>= _) = _
        rw [hq]
        rfl
    obtain ⟨g2, hg2⟩ := hstep
    obtain ⟨g', hg'⟩ := ih g2
    refine ⟨g', ?_⟩
    show (featureStep weightF ev cellSize g f >>= _) = _
    rw [hg2]
    show List.foldlM (featureStep weightF ev cellSize) g2 fs = _
    exact hg'

/-- Counterexample to claim C9: the render handler has no exception
handling — a weight accessor that throws propagates out of the handler to
its caller. -/
theorem claim_C9_counterexample :
    handleRender ⟨5, 5, 250, fun _ => 0, fun _ => Except.error "weight accessor threw"⟩
      ⟨2, 1, fun _ _ _ c => c, []⟩ none
      ⟨0, 0, 10, 10, 1, 1, id, 2, 1, some [⟨5, 5⟩]⟩ =
      Except.error "weight accessor threw" := by
  rfl

/-- Claim C9 as amended: the handler contains no try/catch, so a failing
configured accessor throws to the caller (see the counterexample); whenever
the weight accessor succeeds on every feature — the only fallible step of
the modelled pipeline — the handler completes without error. -/
theorem claim_C9_amended (L : HilomapLayer) (host : CanvasHost)
    (baseRes0 : Option ℚ) (ev : FrameEvent)
    (hw : ∀ f, ∃ q, L.weightF f = Except.ok q) :
    ∃ out, handleRender L host baseRes0 ev = Except.ok out := by
  unfold handleRender pipeline
  cases hlay : ev.layer with
  | none =>
    simp only [hlay]
    exact ⟨_, rfl⟩
  | some features =>
    simp only [hlay]
    obtain ⟨g', hg'⟩ := coarsen_ok L.weightF ev _ hw features []
    rw [show coarsen L.weightF ev
        (cellSizeOf (stampReach L.radius L.blur ev.pixelRatio (zoomROf baseRes0 ev.resolution)))
        features = Except.ok g' from hg']
    have hred : ∀ f : Grid → Except String RenderOutput,
        (Except.ok g' >>= f) = f g' := fun f => rfl
    rw [hred]
    by_cases hlen : 0 < (extractPoints g').length
    · rw [if_pos hlen]
      exact ⟨_, rfl⟩
    · rw [if_neg hlen]
      exact ⟨_, rfl⟩

/-- Witness for the amended C9: a succeeding accessor yields a completed
frame. -/
theorem claim_C9_witness :
    ∃ out, handleRender ⟨5, 5, 250, fun _ => 0, fun _ => Except.ok (1/2)⟩
      ⟨2, 1, fun _ _ _ c => c, []⟩ none
      ⟨0, 0, 10, 10, 1, 1, id, 2, 1, some [⟨5, 5⟩]⟩ = Except.ok out :=
  claim_C9_amended ⟨5, 5, 250, fun _ => 0, fun _ => Except.ok (1/2)⟩
    ⟨2, 1, fun _ _ _ c => c, []⟩ none
    ⟨0, 0, 10, 10, 1, 1, id, 2, 1, some [⟨5, 5⟩]⟩
    (fun _ => ⟨1/2, rfl⟩)

/-- Membership through sorted insertion. -/
theorem insSorted_mem (e x : (ℤ × ℤ) × Pt) : ∀ l : List ((ℤ × ℤ) × Pt),
    x ∈ insSorted e l ↔ x = e ∨ x ∈ l := by
  intro l
  induction l with
  | nil => simp [insSorted]
  | cons a t ih =>
    unfold insSorted
    by_cases h : keyLE e a
    · rw [if_pos h]
      simp [List.mem_cons]
    · rw [if_neg h]
      simp only [List.mem_cons, ih]
      tauto

/-- Sorting the grid entries permutes membership only. -/
theorem sortGrid_mem (x : (ℤ × ℤ) × Pt) : ∀ g : List ((ℤ × ℤ) × Pt),
    x ∈ sortGrid g ↔ x ∈ g := by
  intro g
  induction g with
  | nil => simp [sortGrid]
  | cons e t ih =>
    unfold sortGrid
    rw [List.foldr_cons, insSorted_mem]
    unfold sortGrid at ih
    rw [ih, List.mem_cons]

/-- Claim C10: weight clamping happens only at point-set extraction, after
the per-cell representative has been selected on raw accessor weights.
Every extracted point's weight lies in `[0, 1]`; and a raw out-of-range
weight (here 5) wins the cell against an in-range weight (here -0.4,
distance 0.9 from the midpoint after no clamping) before being clamped to 1
on extraction — whereas clamping the same two weights before the comparison
(to 0 and 1, both at distance 0.5) would have kept the first-seen point. -/
theorem claim_C10 :
    (∀ (g : Grid) (p : Pt), p ∈ extractPoints g → 0 ≤ p.w ∧ p.w ≤ 1) ∧
    gridInsert (gridInsert [] (0, 0) 1 1 (-(2/5))) (0, 0) 2 2 5 =
      [((0, 0), ⟨2, 2, 5⟩)] ∧
    extractPoints [((0, 0), ⟨2, 2, 5⟩)] = [⟨2, 2, 1⟩] ∧
    cellUpdate ⟨1, 1, clampQ (-(2/5)) 0 1⟩ 2 2 (clampQ 5 0 1) =
      ⟨1, 1, clampQ (-(2/5)) 0 1⟩ := by
  refine ⟨?_, ?_, ?_, ?_⟩
  · intro g p hp
    obtain ⟨e, he, hfe⟩ := List.mem_map.mp hp
    have hw : p.w = clampQ e.2.w 0 1 := by rw [← hfe]
    rw [hw]
    unfold clampQ
    constructor
    · exact le_min (le_max_right _ _) (by norm_num)
    · exact min_le_right _ _
  · have hcmp : distHalf (5 : ℚ) > distHalf (-(2/5) : ℚ) := by
      unfold distHalf
      rw [abs_of_nonneg (by norm_num), abs_of_nonpos (by norm_num)]
      norm_num
    simp [gridInsert, gridFind, cellUpdate, List.find?, hcmp]
  · have hclamp : clampQ (5 : ℚ) 0 1 = 1 := by
      unfold clampQ
      rw [max_eq_left (by norm_num), min_eq_right (by norm_num)]
    simp only [extractPoints, List.filter_cons, List.filter_nil]
    norm_num [sortGrid, insSorted, hclamp]
  · have heq : clampQ (5 : ℚ) 0 1 = clampQ (-(2/5) : ℚ) 0 1 + 1 := by
      unfold clampQ
      rw [max_eq_left (by norm_num), min_eq_right (by norm_num),
        max_eq_right (by norm_num), min_eq_left (by norm_num)]
      norm_num
    unfold cellUpdate
    rw [if_neg]
    intro hcon
    rw [heq] at hcon
    have h0 : clampQ (-(2/5) : ℚ) 0 1 = 0 := by
      unfold clampQ
      rw [max_eq_right (by norm_num), min_eq_left (by norm_num)]
    rw [h0] at hcon
    unfold distHalf at hcon
    rw [abs_of_nonneg (by norm_num), abs_of_nonpos (by norm_num)] at hcon
    norm_num at hcon

/-- Witness for C10 at a concrete grid whose single cell holds an
out-of-range weight. -/
theorem claim_C10_witness :
    0 ≤ (⟨2, 2, 1⟩ : Pt).w ∧ (⟨2, 2, 1⟩ : Pt).w ≤ 1 :=
  claim_C10.1 [((0, 0), ⟨2, 2, 5⟩)] ⟨2, 2, 1⟩ (by rw [claim_C10.2.2.1]; exact List.mem_singleton.mpr rfl)

end Hilomap
